import Mathlib

/-!
Shallow embedding of the FractalDreams native Mandelbrot renderer
(`app/src/main/cpp/native-lib.cpp`).

C++ `double` arithmetic is modelled over a linear ordered field: `ℚ` for the
executable instances, `ℝ` where exact base-2 logarithms are analysed.  The
library function `std::log2` is not fixed by the embedding; it is passed as an
explicit function parameter `log2`, instantiated with `Real.logb 2` when the
analytic claims are settled.  Packed ARGB colors are natural numbers, and the
C++ `int` index arithmetic (which never overflows 32 bits for the quantities
involved) is modelled on `ℤ` with `Int.tmod` for the C++ truncating `%`.
-/

/-- C++ `static_cast<int>` applied to a floating value: truncation toward
zero. -/
def truncToInt {F : Type} [LinearOrderedField F] [FloorRing F] (x : F) : ℤ :=
  if x < 0 then -(Int.floor (-x)) else Int.floor x

/-- The index clamp `std::max(0, std::min(index, 65535))` from lines 80 and 83
of `native-lib.cpp`. -/
def clampIdx (i : ℤ) : ℤ := max 0 (min i 65535)

namespace Colors

/-- `Colors::r`: `(color >> 16) & 0xFF`. -/
def r (color : ℕ) : ℕ := (color >>> 16) &&& 0xFF

/-- `Colors::g`: `(color >> 8) & 0xFF`. -/
def g (color : ℕ) : ℕ := (color >>> 8) &&& 0xFF

/-- `Colors::b`: `color & 0xFF`. -/
def b (color : ℕ) : ℕ := color &&& 0xFF

/-- `Colors::rgb`: `(0xFF << 24) | (r << 16) | (g << 8) | b`. -/
def rgb (r g b : ℕ) : ℕ := (0xFF <<< 24) ||| (r <<< 16) ||| (g <<< 8) ||| b

end Colors

/-- Entry `i` of `logMagnitudeLookupTable` as the `initNative` loop fills it:
`log2(4.0 + (i / 65535.0) * 32.0)`. -/
def logMagnitudeLookupTable {F : Type} [LinearOrderedField F]
    (log2 : F → F) (i : ℕ) : F :=
  log2 (4 + (i : F) / 65535 * 32)

/-- Entry `i` of `logLogLookupTable` as the `initNative` loop fills it:
`log2(1.0 + (i / 65535.0) * 1.585)`. -/
def logLogLookupTable {F : Type} [LinearOrderedField F]
    (log2 : F → F) (i : ℕ) : F :=
  log2 (1 + (i : F) / 65535 * 1.585)

/-- The two 65536-entry vectors built by `initNative` (lines 28-40), as the
lists of their entries in index order. -/
def initNative {F : Type} [LinearOrderedField F] (log2 : F → F) :
    List F × List F :=
  ((List.range 65536).map fun i : ℕ => log2 (4 + (i : F) / 65535 * 32),
   (List.range 65536).map fun i : ℕ => log2 (1 + (i : F) / 65535 * 1.585))

/-- The double-modulo palette index
`((i + colorOffset) % n + n) % n` (lines 94-96 and 104-106), with the C++
truncating `%` modelled by `Int.tmod`. -/
def wrapIndex (i colorOffset n : ℤ) : ℤ :=
  ((i + colorOffset).tmod n + n).tmod n

/-- First clamped lookup index (lines 79-80):
`clamp(static_cast<int>((magSq - 4.0) * logMagnitudeScaleFactor))`. -/
def magIndex {F : Type} [LinearOrderedField F] [FloorRing F]
    (magSq logMagnitudeScaleFactor : F) : ℤ :=
  clampIdx (truncToInt ((magSq - 4) * logMagnitudeScaleFactor))

/-- Second clamped lookup index (lines 82-83):
`clamp(static_cast<int>((logZn - 1.0) * logLogScaleFactor))`. -/
def nuIndex {F : Type} [LinearOrderedField F] [FloorRing F]
    (logZn logLogScaleFactor : F) : ℤ :=
  clampIdx (truncToInt ((logZn - 1) * logLogScaleFactor))

/-- The smooth-coloring correction term `nu` (lines 73-88), computed through
the lookup tables when `useLog2Lookup` and exactly otherwise. -/
def smoothNu {F : Type} [LinearOrderedField F] [FloorRing F]
    (log2 : F → F) (useLog2Lookup : Bool)
    (magSq logMagnitudeScaleFactor logLogScaleFactor log2_2 : F) : F :=
  if useLog2Lookup then
    let index := magIndex magSq logMagnitudeScaleFactor
    let logZn := logMagnitudeLookupTable log2 index.toNat / 2
    logLogLookupTable log2 (nuIndex logZn logLogScaleFactor).toNat / log2_2
  else
    let logZn := log2 magSq / 2
    log2 logZn / log2_2

/-- The `AffineTransform` struct mirroring the Kotlin data class. -/
structure AffineTransform where
  zx_x : ℚ
  zx_y : ℚ
  zx_c : ℚ
  zy_x : ℚ
  zy_y : ℚ
  zy_c : ℚ

/-- The exact Mandelbrot orbit of the parameter `c = c_re + i*c_im`:
`orbit 0 = (0, 0)` and `orbit (k+1) = z_k² + c` expanded componentwise exactly
as in lines 63-65 of the loop body. -/
def orbit (c_re c_im : ℚ) : ℕ → ℚ × ℚ
  | 0 => (0, 0)
  | k + 1 =>
    let z := orbit c_re c_im k
    (z.1 * z.1 - z.2 * z.2 + c_re, 2 * z.1 * z.2 + c_im)

/-- Fuel-indexed form of the `while (i < maxIterations)` loop of lines 55-67;
`fuel` is `maxIterations - i`.  Each pass computes `z_re_sq`, `z_im_sq` from
the previous iterate, tests `z_re_sq + z_im_sq > escapeRadiusSquared` before
mutating, and otherwise steps `z ← z² + c` and increments `i`. -/
def escapeLoopAux (c_re c_im escapeRadiusSquared : ℚ) :
    ℕ → ℕ → ℚ → ℚ → ℕ × ℚ × ℚ
  | 0, i, z_re, z_im => (i, z_re, z_im)
  | fuel + 1, i, z_re, z_im =>
    let z_re_sq := z_re * z_re
    let z_im_sq := z_im * z_im
    if z_re_sq + z_im_sq > escapeRadiusSquared then (i, z_re, z_im)
    else
      escapeLoopAux c_re c_im escapeRadiusSquared fuel (i + 1)
        (z_re_sq - z_im_sq + c_re) (2 * z_re * z_im + c_im)

/-- The escape-time loop of `calculate_pixel_color` (lines 51-67), started at
`i = 0`, `z = 0 + 0i`; returns the final `(i, z_re, z_im)`. -/
def escapeLoop (c_re c_im escapeRadiusSquared : ℚ) (maxIterations : ℕ) :
    ℕ × ℚ × ℚ :=
  escapeLoopAux c_re c_im escapeRadiusSquared maxIterations 0 0 0

/-- The channel interpolation and repack of lines 98-103: each channel is
`c1 * (1 - fraction) + c2 * fraction` truncated to an integer, then packed by
`Colors::rgb`. -/
def interpolateColor (color1 color2 : ℕ) (fraction : ℚ) : ℕ :=
  let r := truncToInt ((Colors.r color1 : ℚ) * (1 - fraction) +
    (Colors.r color2 : ℚ) * fraction)
  let g := truncToInt ((Colors.g color1 : ℚ) * (1 - fraction) +
    (Colors.g color2 : ℚ) * fraction)
  let b := truncToInt ((Colors.b color1 : ℚ) * (1 - fraction) +
    (Colors.b color2 : ℚ) * fraction)
  Colors.rgb r.toNat g.toNat b.toNat

/-- The full per-pixel routine `calculate_pixel_color` (lines 44-107).  The
palette pointer is modelled as the function `colorPalette` from indices to
packed colors. -/
def calculate_pixel_color (log2 : ℚ → ℚ) (x y : ℤ) (transform : AffineTransform)
    (maxIterations : ℕ) (escapeRadiusSquared : ℚ) (colorPalette : ℕ → ℕ)
    (colorOffset : ℤ) (smoothColors useLog2Lookup : Bool)
    (logMagnitudeScaleFactor logLogScaleFactor log2_2 : ℚ) : ℕ :=
  let c_re := transform.zx_x * (x : ℚ) + transform.zx_y * (y : ℚ) + transform.zx_c
  let c_im := transform.zy_x * (x : ℚ) + transform.zy_y * (y : ℚ) + transform.zy_c
  let res := escapeLoop c_re c_im escapeRadiusSquared maxIterations
  let i := res.1
  let z_re := res.2.1
  let z_im := res.2.2
  if i = maxIterations then colorPalette maxIterations
  else if smoothColors then
    let magSq := z_re * z_re + z_im * z_im
    let nu := smoothNu log2 useLog2Lookup magSq logMagnitudeScaleFactor
      logLogScaleFactor log2_2
    let continuousIndex := max 0 ((i : ℚ) + 1 - nu)
    let index1 := truncToInt continuousIndex
    let index2 := index1 + 1
    let color1 := colorPalette (wrapIndex index1 colorOffset (maxIterations : ℤ)).toNat
    let color2 := colorPalette (wrapIndex index2 colorOffset (maxIterations : ℤ)).toNat
    let fraction := continuousIndex - Int.floor continuousIndex
    interpolateColor color1 color2 fraction
  else
    colorPalette (wrapIndex (i : ℤ) colorOffset (maxIterations : ℤ)).toNat

/-- The row-major pixel list of the nested `for (y) for (x)` loops of
`mandelbrotRenderBlock` (lines 144-154). -/
def blockPixels (currentBlockHeight currentBlockWidth : ℕ) : List (ℕ × ℕ) :=
  (List.range currentBlockHeight).flatMap fun y =>
    (List.range currentBlockWidth).map fun x => (y, x)

/-- One iteration of the block loop body: when `cond p` holds (the pixel is
not masked off), write `val p` into the buffer at `ix p`. -/
def renderStep (cond : ℕ × ℕ → Bool) (ix : ℕ × ℕ → ℕ) (val : ℕ × ℕ → ℕ)
    (buf : ℕ → ℕ) (p : ℕ × ℕ) : ℕ → ℕ :=
  if cond p then Function.update buf (ix p) (val p) else buf

/-- The `mandelbrotRenderBlock` entry point (lines 110-163): fold the loop body
over the pixels in row-major order.  The output buffer `colorArray` and the
optional skip mask `isPixelSet` are modelled as functions on indices; the
result is the final state of the output buffer. -/
def mandelbrotRenderBlock (log2 : ℚ → ℚ)
    (currentBlockHeight currentBlockWidth : ℕ) (blockX blockY : ℤ)
    (transform : AffineTransform) (maxIterations : ℕ)
    (escapeRadiusSquared : ℚ) (colorPalette : ℕ → ℕ) (colorOffset : ℤ)
    (smoothColors useLog2Lookup : Bool)
    (logMagnitudeScaleFactor logLogScaleFactor log2_2 : ℚ)
    (isPixelSet : Option (ℕ → Bool)) (colorArray : ℕ → ℕ) : ℕ → ℕ :=
  (blockPixels currentBlockHeight currentBlockWidth).foldl
    (renderStep
      (fun p =>
        match isPixelSet with
        | none => true
        | some m => !m (p.1 * currentBlockWidth + p.2))
      (fun p => p.1 * currentBlockWidth + p.2)
      (fun p =>
        calculate_pixel_color log2 (blockX + (p.2 : ℤ)) (blockY + (p.1 : ℤ))
          transform maxIterations escapeRadiusSquared colorPalette colorOffset
          smoothColors useLog2Lookup logMagnitudeScaleFactor logLogScaleFactor
          log2_2))
    colorArray

/-- The squared magnitude `z_re * z_re + z_im * z_im` tested by the loop. -/
def magSq (z : ℚ × ℚ) : ℚ := z.1 * z.1 + z.2 * z.2

lemma escapeLoopAux_zero (c_re c_im esc : ℚ) (i : ℕ) (z_re z_im : ℚ) :
    escapeLoopAux c_re c_im esc 0 i z_re z_im = (i, z_re, z_im) := rfl

lemma escapeLoopAux_succ (c_re c_im esc : ℚ) (fuel i : ℕ) (z_re z_im : ℚ) :
    escapeLoopAux c_re c_im esc (fuel + 1) i z_re z_im =
      if z_re * z_re + z_im * z_im > esc then (i, z_re, z_im)
      else escapeLoopAux c_re c_im esc fuel (i + 1)
        (z_re * z_re - z_im * z_im + c_re) (2 * z_re * z_im + c_im) := rfl

lemma orbit_succ (c_re c_im : ℚ) (k : ℕ) :
    orbit c_re c_im (k + 1) =
      ((orbit c_re c_im k).1 * (orbit c_re c_im k).1 -
        (orbit c_re c_im k).2 * (orbit c_re c_im k).2 + c_re,
       2 * (orbit c_re c_im k).1 * (orbit c_re c_im k).2 + c_im) := rfl

/-- All correctness properties of the fuel-indexed loop in one statement: the
returned counter lies in `[k, k + fuel]`, the returned `z` is the orbit value
at the counter, every orbit value strictly before the counter passed the
escape test, and stopping early means the escape test failed at the counter. -/
lemma escapeLoopAux_correct (c_re c_im esc : ℚ) :
    ∀ (fuel k : ℕ),
      k ≤ (escapeLoopAux c_re c_im esc fuel k (orbit c_re c_im k).1
          (orbit c_re c_im k).2).1 ∧
      (escapeLoopAux c_re c_im esc fuel k (orbit c_re c_im k).1
          (orbit c_re c_im k).2).1 ≤ k + fuel ∧
      (escapeLoopAux c_re c_im esc fuel k (orbit c_re c_im k).1
          (orbit c_re c_im k).2).2 =
        orbit c_re c_im (escapeLoopAux c_re c_im esc fuel k
          (orbit c_re c_im k).1 (orbit c_re c_im k).2).1 ∧
      (∀ j, k ≤ j →
        j < (escapeLoopAux c_re c_im esc fuel k (orbit c_re c_im k).1
          (orbit c_re c_im k).2).1 →
        magSq (orbit c_re c_im j) ≤ esc) ∧
      ((escapeLoopAux c_re c_im esc fuel k (orbit c_re c_im k).1
          (orbit c_re c_im k).2).1 < k + fuel →
        magSq (orbit c_re c_im (escapeLoopAux c_re c_im esc fuel k
          (orbit c_re c_im k).1 (orbit c_re c_im k).2).1) > esc) := by
  intro fuel
  induction fuel with
  | zero =>
    intro k
    rw [escapeLoopAux_zero]
    exact ⟨Nat.le_refl k, Nat.le_refl k, rfl,
      fun j h1 h2 => absurd h2 (Nat.not_lt.mpr h1),
      fun h => absurd h (Nat.lt_irrefl k)⟩
  | succ fuel ih =>
    intro k
    rw [escapeLoopAux_succ]
    by_cases hesc : (orbit c_re c_im k).1 * (orbit c_re c_im k).1 +
        (orbit c_re c_im k).2 * (orbit c_re c_im k).2 > esc
    · rw [if_pos hesc]
      exact ⟨Nat.le_refl k, Nat.le_add_right k _, rfl,
        fun j h1 h2 => absurd h2 (Nat.not_lt.mpr h1),
        fun _ => hesc⟩
    · rw [if_neg hesc]
      rw [show (orbit c_re c_im k).1 * (orbit c_re c_im k).1 -
            (orbit c_re c_im k).2 * (orbit c_re c_im k).2 + c_re =
            (orbit c_re c_im (k + 1)).1 from by rw [orbit_succ],
          show 2 * (orbit c_re c_im k).1 * (orbit c_re c_im k).2 + c_im =
            (orbit c_re c_im (k + 1)).2 from by rw [orbit_succ]]
      obtain ⟨i1, i2, i3, i4, i5⟩ := ih (k + 1)
      refine ⟨le_trans (Nat.le_succ k) i1, by omega, i3, fun j hj1 hj2 => ?_,
        fun h => i5 (by omega)⟩
      rcases Nat.eq_or_lt_of_le hj1 with heq | hlt
      · subst heq
        exact le_of_not_lt hesc
      · exact i4 j hlt hj2

lemma escapeLoop_eq_aux (c_re c_im esc : ℚ) (maxIterations : ℕ) :
    escapeLoop c_re c_im esc maxIterations =
      escapeLoopAux c_re c_im esc maxIterations 0 (orbit c_re c_im 0).1
        (orbit c_re c_im 0).2 := rfl

/-- The escape-time loop characterized against the mathematical orbit: the
count is at most `maxIterations`, the returned `z` is the orbit value at the
count, every earlier orbit value passed the test, an early stop means the
test failed at the count, and a pixel that never exceeds the threshold runs
all `maxIterations` iterations. -/
lemma escapeLoop_correct (c_re c_im esc : ℚ) (maxIterations : ℕ) :
    (escapeLoop c_re c_im esc maxIterations).1 ≤ maxIterations ∧
    (escapeLoop c_re c_im esc maxIterations).2 =
      orbit c_re c_im (escapeLoop c_re c_im esc maxIterations).1 ∧
    (∀ j, j < (escapeLoop c_re c_im esc maxIterations).1 →
      magSq (orbit c_re c_im j) ≤ esc) ∧
    ((escapeLoop c_re c_im esc maxIterations).1 < maxIterations →
      magSq (orbit c_re c_im (escapeLoop c_re c_im esc maxIterations).1) > esc) ∧
    ((∀ j, j < maxIterations → magSq (orbit c_re c_im j) ≤ esc) →
      (escapeLoop c_re c_im esc maxIterations).1 = maxIterations) := by
  rw [escapeLoop_eq_aux]
  obtain ⟨h1, h2, h3, h4, h5⟩ := escapeLoopAux_correct c_re c_im esc maxIterations 0
  refine ⟨by omega, h3, fun j hj => h4 j (Nat.zero_le j) hj, fun hh => h5 (by omega), ?_⟩
  intro hall
  by_contra hne
  have hlt : (escapeLoopAux c_re c_im esc maxIterations 0 (orbit c_re c_im 0).1
      (orbit c_re c_im 0).2).1 < maxIterations := by omega
  have := h5 (by omega)
  have := hall _ hlt
  linarith

lemma orbit_zero_param (j : ℕ) : orbit 0 0 j = (0, 0) := by
  induction j with
  | zero => rfl
  | succ k ih => rw [orbit_succ, ih]; norm_num

/-- Interior classification in `calculate_pixel_color`: when the loop count
reaches `maxIterations` the palette's reserved interior entry is returned,
whatever the coloring flags say. -/
lemma calculate_interior (log2 : ℚ → ℚ) (x y : ℤ) (transform : AffineTransform)
    (maxIterations : ℕ) (esc : ℚ) (p : ℕ → ℕ) (off : ℤ) (sc lu : Bool)
    (sf1 sf2 l22 : ℚ)
    (h : (escapeLoop
        (transform.zx_x * (x : ℚ) + transform.zx_y * (y : ℚ) + transform.zx_c)
        (transform.zy_x * (x : ℚ) + transform.zy_y * (y : ℚ) + transform.zy_c)
        esc maxIterations).1 = maxIterations) :
    calculate_pixel_color log2 x y transform maxIterations esc p off sc lu
      sf1 sf2 l22 = p maxIterations := by
  simp only [calculate_pixel_color]
  rw [if_pos h]

/-- Claim C1: the escape-time loop tests `|z|² > escapeRadiusSquared` before
each iteration step, computing `|z|²` from the previous iterate's components,
iterates `z ← z² + c` at most `maxIterations` times, and a pixel whose `|z|²`
never exceeds the threshold runs exactly `maxIterations` iterations and is
classified as non-escaping (its count equals `maxIterations`). -/
theorem c1_escape_time_loop (c_re c_im esc : ℚ) (maxIterations : ℕ) :
    (escapeLoop c_re c_im esc maxIterations).1 ≤ maxIterations ∧
    (escapeLoop c_re c_im esc maxIterations).2 =
      orbit c_re c_im (escapeLoop c_re c_im esc maxIterations).1 ∧
    (∀ j, j < (escapeLoop c_re c_im esc maxIterations).1 →
      magSq (orbit c_re c_im j) ≤ esc) ∧
    ((escapeLoop c_re c_im esc maxIterations).1 < maxIterations →
      magSq (orbit c_re c_im (escapeLoop c_re c_im esc maxIterations).1) > esc) ∧
    ((∀ j, j < maxIterations → magSq (orbit c_re c_im j) ≤ esc) →
      (escapeLoop c_re c_im esc maxIterations).1 = maxIterations) :=
  escapeLoop_correct c_re c_im esc maxIterations

/-- Witness for C1 at the interior parameter `c = 0 + 0i` with
`maxIterations = 5`: the loop runs exactly 5 iterations. -/
theorem c1_escape_time_loop_witness : (escapeLoop 0 0 4 5).1 = 5 :=
  (c1_escape_time_loop 0 0 4 5).2.2.2.2 (by
    intro j _
    rw [orbit_zero_param]
    norm_num [magSq])

/-- Claim C2: whenever the iteration count equals `maxIterations`, the color
resolver returns `palette[maxIterations]` regardless of `smoothColors`,
`useLog2Lookup` and `colorOffset`; in the scenario `maxIterations = 50` with a
transform mapping the pixel to `c = 0 + 0i`, the count is 50 and the color is
`palette[50]`. -/
theorem c2_interior_palette :
    (∀ (log2 : ℚ → ℚ) (x y : ℤ) (transform : AffineTransform)
      (maxIterations : ℕ) (esc : ℚ) (p : ℕ → ℕ) (off : ℤ) (sc lu : Bool)
      (sf1 sf2 l22 : ℚ),
      (escapeLoop
          (transform.zx_x * (x : ℚ) + transform.zx_y * (y : ℚ) + transform.zx_c)
          (transform.zy_x * (x : ℚ) + transform.zy_y * (y : ℚ) + transform.zy_c)
          esc maxIterations).1 = maxIterations →
      calculate_pixel_color log2 x y transform maxIterations esc p off sc lu
        sf1 sf2 l22 = p maxIterations) ∧
    (escapeLoop 0 0 4 50).1 = 50 ∧
    (∀ (log2 : ℚ → ℚ) (x y : ℤ) (p : ℕ → ℕ) (off : ℤ) (sc lu : Bool)
      (sf1 sf2 l22 : ℚ),
      calculate_pixel_color log2 x y ⟨0, 0, 0, 0, 0, 0⟩ 50 4 p off sc lu
        sf1 sf2 l22 = p 50) := by
  have hcount : ∀ (x y : ℤ),
      (escapeLoop ((0 : ℚ) * (x : ℚ) + 0 * (y : ℚ) + 0)
        ((0 : ℚ) * (x : ℚ) + 0 * (y : ℚ) + 0) 4 50).1 = 50 := by
    intro x y
    have hc : (0 : ℚ) * (x : ℚ) + 0 * (y : ℚ) + 0 = 0 := by ring
    rw [hc]
    exact (escapeLoop_correct 0 0 4 50).2.2.2.2 (by
      intro j _
      rw [orbit_zero_param]
      norm_num [magSq])
  refine ⟨fun log2 x y transform maxIterations esc p off sc lu sf1 sf2 l22 h =>
    calculate_interior log2 x y transform maxIterations esc p off sc lu
      sf1 sf2 l22 h, ?_, ?_⟩
  · have h := hcount 0 0
    simpa using h
  · intro log2 x y p off sc lu sf1 sf2 l22
    exact calculate_interior log2 x y ⟨0, 0, 0, 0, 0, 0⟩ 50 4 p off sc lu
      sf1 sf2 l22 (hcount x y)

/-- Witness for C2: with the zero transform, `maxIterations = 50` and a
concrete palette, the pixel is resolved to the palette's interior entry. -/
theorem c2_interior_palette_witness :
    calculate_pixel_color (fun q => q) 0 0 ⟨0, 0, 0, 0, 0, 0⟩ 50 4
      (fun n => n * 3) 7 true true 1 1 1 = (fun n => n * 3) 50 :=
  c2_interior_palette.2.2 (fun q => q) 0 0 (fun n => n * 3) 7 true true 1 1 1

lemma tmod_neg_lower (a n : ℤ) (h : 0 < n) : -n ≤ a.tmod n := by
  rcases le_or_lt 0 a with ha | ha
  · exact le_trans (by omega) (Int.tmod_nonneg n ha)
  · have h2 : (-a).tmod n < n := Int.tmod_lt_of_pos (-a) h
    have h3 : (-a).tmod n = -(a.tmod n) := by
      rw [Int.tmod_def, Int.tmod_def, Int.neg_tdiv]; ring
    omega

/-- Claim C3: for `maxIterations ≥ 1` and any integer iteration count and
color offset, the double-modulo palette index
`((i + colorOffset) % maxIterations + maxIterations) % maxIterations` (with
the C++ truncating `%`) lies in `[0, maxIterations)`, also when the raw sum
is negative. -/
theorem c3_wrap_index_range (iterationCount colorOffset maxIterations : ℤ)
    (h : 1 ≤ maxIterations) :
    0 ≤ wrapIndex iterationCount colorOffset maxIterations ∧
    wrapIndex iterationCount colorOffset maxIterations < maxIterations := by
  have hn : 0 < maxIterations := h
  have hlow : -maxIterations ≤ (iterationCount + colorOffset).tmod maxIterations :=
    tmod_neg_lower _ _ hn
  constructor
  · exact Int.tmod_nonneg _ (by omega)
  · exact Int.tmod_lt_of_pos _ hn

/-- Witness for C3 at `iterationCount = -7`, `colorOffset = -9`,
`maxIterations = 5`: the raw sum is negative yet the index is in range. -/
theorem c3_wrap_index_range_witness :
    0 ≤ wrapIndex (-7) (-9) 5 ∧ wrapIndex (-7) (-9) 5 < 5 :=
  c3_wrap_index_range (-7) (-9) 5 (by decide)

/-- Claim C4: after initialization, entry `i` of the magnitude table holds
`log2(4.0 + (i/65535.0)*32.0)` and entry `i` of the log-log table holds
`log2(1.0 + (i/65535.0)*1.585)`; in particular entry 0 of the magnitude table
is exactly `log2 4` and entry 65535 is exactly `log2 36`. -/
theorem c4_lookup_tables {F : Type} [LinearOrderedField F] (log2 : F → F)
    (i : ℕ) (h : i < 65536) :
    (initNative log2).1[i]? = some (logMagnitudeLookupTable log2 i) ∧
    (initNative log2).2[i]? = some (logLogLookupTable log2 i) ∧
    logMagnitudeLookupTable log2 0 = log2 4 ∧
    logMagnitudeLookupTable log2 65535 = log2 36 := by
  refine ⟨?_, ?_, ?_, ?_⟩
  · simp only [initNative]
    rw [List.getElem?_map, List.getElem?_range h, Option.map_some']
    rfl
  · simp only [initNative]
    rw [List.getElem?_map, List.getElem?_range h, Option.map_some']
    rfl
  · norm_num [logMagnitudeLookupTable]
  · norm_num [logMagnitudeLookupTable]

/-- Witness for C4 at index 0 over `ℚ` with the identity standing in for
`log2`. -/
theorem c4_lookup_tables_witness :
    (initNative (fun q : ℚ => q)).1[0]? =
      some (logMagnitudeLookupTable (fun q : ℚ => q) 0) ∧
    (initNative (fun q : ℚ => q)).2[0]? =
      some (logLogLookupTable (fun q : ℚ => q) 0) ∧
    logMagnitudeLookupTable (fun q : ℚ => q) 0 = (fun q : ℚ => q) 4 ∧
    logMagnitudeLookupTable (fun q : ℚ => q) 65535 = (fun q : ℚ => q) 36 :=
  c4_lookup_tables (fun q : ℚ => q) 0 (by norm_num)

/-- Claim C5: both clamped lookup-table indices used by the smooth path with
`useLog2Lookup = true` lie in `[0, 65535]` for every magnitude, intermediate
`logZn` and scale factor, so every table access is within bounds. -/
theorem c5_clamped_indices {F : Type} [LinearOrderedField F] [FloorRing F]
    (magSqv scale1 logZn scale2 : F) :
    0 ≤ magIndex magSqv scale1 ∧ magIndex magSqv scale1 ≤ 65535 ∧
    0 ≤ nuIndex logZn scale2 ∧ nuIndex logZn scale2 ≤ 65535 := by
  unfold magIndex nuIndex clampIdx
  refine ⟨le_max_left 0 _, max_le (by norm_num) (min_le_right _ _),
    le_max_left 0 _, max_le (by norm_num) (min_le_right _ _)⟩

/-- Witness for C5 over `ℚ` at a magnitude whose unclamped quantized index
would be far above 65535. -/
theorem c5_clamped_indices_witness :
    0 ≤ magIndex (10 ^ 9 : ℚ) 2048 ∧ magIndex (10 ^ 9 : ℚ) 2048 ≤ 65535 ∧
    0 ≤ nuIndex (-5 : ℚ) 41347 ∧ nuIndex (-5 : ℚ) 41347 ≤ 65535 :=
  c5_clamped_indices (10 ^ 9 : ℚ) 2048 (-5 : ℚ) 41347

lemma foldl_renderStep_of_no_writer (cond : ℕ × ℕ → Bool) (ix val : ℕ × ℕ → ℕ)
    (L : List (ℕ × ℕ)) (buf : ℕ → ℕ) (idx : ℕ)
    (h : ∀ p ∈ L, ix p = idx → cond p = false) :
    (L.foldl (renderStep cond ix val) buf) idx = buf idx := by
  induction L generalizing buf with
  | nil => rfl
  | cons q rest ih =>
    rw [List.foldl_cons, ih _ (fun p hp => h p (List.mem_cons_of_mem q hp))]
    unfold renderStep
    by_cases hc : cond q
    · rcases eq_or_ne (ix q) idx with he | hne
      · rw [h q (List.mem_cons_self q rest) he] at hc
        cases hc
      · rw [if_pos hc]
        exact Function.update_noteq (Ne.symm hne) _ _
    · rw [if_neg hc]

lemma foldl_renderStep_of_writer (cond : ℕ × ℕ → Bool) (ix val : ℕ × ℕ → ℕ)
    (L : List (ℕ × ℕ)) (buf : ℕ → ℕ) (idx V : ℕ)
    (hall : ∀ p ∈ L, ix p = idx → cond p = true ∧ val p = V)
    (hex : ∃ p ∈ L, ix p = idx) :
    (L.foldl (renderStep cond ix val) buf) idx = V := by
  induction L generalizing buf with
  | nil =>
    rcases hex with ⟨p, hp, _⟩
    cases hp
  | cons q rest ih =>
    rw [List.foldl_cons]
    by_cases hrest : ∃ p ∈ rest, ix p = idx
    · exact ih _ (fun p hp hpx => hall p (List.mem_cons_of_mem q hp) hpx) hrest
    · have hq : ix q = idx := by
        rcases hex with ⟨p, hp, hpx⟩
        rcases List.mem_cons.mp hp with rfl | hp2
        · exact hpx
        · exact absurd ⟨p, hp2, hpx⟩ hrest
      obtain ⟨hc, hv⟩ := hall q (List.mem_cons_self q rest) hq
      rw [foldl_renderStep_of_no_writer cond ix val rest _ idx
        (fun p hp hpx => absurd ⟨p, hp, hpx⟩ hrest)]
      unfold renderStep
      rw [if_pos hc, hq, Function.update_same, hv]

lemma mem_blockPixels (h w y x : ℕ) (hy : y < h) (hx : x < w) :
    (y, x) ∈ blockPixels h w :=
  List.mem_flatMap.mpr ⟨y, List.mem_range.mpr hy,
    List.mem_map.mpr ⟨x, List.mem_range.mpr hx, rfl⟩⟩

lemma blockPixels_bounds {h w : ℕ} {p : ℕ × ℕ} (hp : p ∈ blockPixels h w) :
    p.1 < h ∧ p.2 < w := by
  obtain ⟨y, hy, hmem⟩ := List.mem_flatMap.mp hp
  obtain ⟨x, hx, rfl⟩ := List.mem_map.mp hmem
  exact ⟨List.mem_range.mp hy, List.mem_range.mp hx⟩

lemma rowMajor_inj {w y1 x1 y2 x2 : ℕ} (hx1 : x1 < w) (hx2 : x2 < w)
    (h : y1 * w + x1 = y2 * w + x2) : y1 = y2 ∧ x1 = x2 := by
  have e1 : (y1 * w + x1) % w = x1 := by
    rw [Nat.mul_comm y1 w, Nat.mul_add_mod, Nat.mod_eq_of_lt hx1]
  have e2 : (y2 * w + x2) % w = x2 := by
    rw [Nat.mul_comm y2 w, Nat.mul_add_mod, Nat.mod_eq_of_lt hx2]
  have hx : x1 = x2 := by rw [← e1, ← e2, h]
  subst hx
  have hw : 0 < w := Nat.pos_of_ne_zero (by omega)
  have hy : y1 * w = y2 * w := by omega
  exact ⟨Nat.eq_of_mul_eq_mul_right hw hy, rfl⟩

/-- Claim C6: a render-block call leaves the output entry of every pixel whose
skip-mask entry is set untouched, and writes to every other pixel the color
computed for the absolute coordinates `(blockX + x, blockY + y)` at the
row-major index `y * blockWidth + x`. -/
theorem c6_skip_mask (log2 : ℚ → ℚ) (h w : ℕ) (blockX blockY : ℤ)
    (transform : AffineTransform) (maxIterations : ℕ) (esc : ℚ) (p : ℕ → ℕ)
    (off : ℤ) (sc lu : Bool) (sf1 sf2 l22 : ℚ) (isPixelSet : Option (ℕ → Bool))
    (colorArray : ℕ → ℕ) (x y : ℕ) (hx : x < w) (hy : y < h) :
    (∀ m, isPixelSet = some m → m (y * w + x) = true →
      mandelbrotRenderBlock log2 h w blockX blockY transform maxIterations esc
        p off sc lu sf1 sf2 l22 isPixelSet colorArray (y * w + x) =
      colorArray (y * w + x)) ∧
    ((isPixelSet = none ∨ ∃ m, isPixelSet = some m ∧ m (y * w + x) = false) →
      mandelbrotRenderBlock log2 h w blockX blockY transform maxIterations esc
        p off sc lu sf1 sf2 l22 isPixelSet colorArray (y * w + x) =
      calculate_pixel_color log2 (blockX + (x : ℤ)) (blockY + (y : ℤ)) transform
        maxIterations esc p off sc lu sf1 sf2 l22) := by
  constructor
  · intro m hm hmask
    subst hm
    unfold mandelbrotRenderBlock
    apply foldl_renderStep_of_no_writer
    intro q hq hqx
    simp only
    rw [hqx, hmask]
    rfl
  · intro hcase
    unfold mandelbrotRenderBlock
    apply foldl_renderStep_of_writer
    · intro q hq hqx
      obtain ⟨hq1, hq2⟩ := blockPixels_bounds hq
      obtain ⟨hyy, hxx⟩ := rowMajor_inj hq2 hx hqx
      constructor
      · rcases hcase with hnone | ⟨m, hm, hmask⟩
        · subst hnone
          rfl
        · subst hm
          simp only
          rw [hqx, hmask]
          rfl
      · rw [hyy, hxx]
    · exact ⟨(y, x), mem_blockPixels h w y x hy hx, rfl⟩

/-- Witness for C6: in a 2-by-2 block whose mask flags index 0 as already set,
the render call leaves the buffer entry at index 0 unchanged. -/
theorem c6_skip_mask_witness :
    mandelbrotRenderBlock (fun q => q) 2 2 0 0 ⟨0, 0, 0, 0, 0, 0⟩ 3 4
      (fun n => n) 0 false false 1 1 1 (some fun idx => decide (idx = 0))
      (fun idx => 100 + idx) (0 * 2 + 0) = (fun idx => 100 + idx) (0 * 2 + 0) :=
  (c6_skip_mask (fun q => q) 2 2 0 0 ⟨0, 0, 0, 0, 0, 0⟩ 3 4 (fun n => n) 0
    false false 1 1 1 (some fun idx => decide (idx = 0)) (fun idx => 100 + idx)
    0 0 (by decide) (by decide)).1 (fun idx => decide (idx = 0)) rfl (by decide)

lemma escapeLoop_two (k : ℕ) :
    escapeLoop 2 0 4 (3 + k) = (2, 6, 0) := by
  rw [show escapeLoop 2 0 4 (3 + k) = escapeLoopAux 2 0 4 (3 + k) 0 0 0 from rfl]
  rw [show 3 + k = (2 + k) + 1 from by omega, escapeLoopAux_succ]
  norm_num
  rw [show 2 + k = (1 + k) + 1 from by omega, escapeLoopAux_succ]
  norm_num
  rw [show 1 + k = k + 1 from by omega, escapeLoopAux_succ]
  norm_num

/-- Counterexample to claim C7: with a transform mapping the pixel to
`c = 2 + 0i` and `escapeRadiusSquared = 4`, the escape test is strict, so
`|c|² = 4` does not trigger it; the loop escapes at iteration count 2, not 1,
and the discrete color is `palette[2]`, not `palette[1 mod maxIterations]`. -/
theorem c7_counterexample :
    (escapeLoop 2 0 4 10).1 ≠ 1 ∧
    calculate_pixel_color (fun q => q) 0 0 ⟨0, 0, 2, 0, 0, 0⟩ 10 4
      (fun n => 100 + n) 0 false false 1 1 1 ≠ 100 + 1 % 10 := by
  have hloop : escapeLoop 2 0 4 10 = (2, 6, 0) := escapeLoop_two 7
  constructor
  · rw [hloop]
    norm_num
  · simp only [calculate_pixel_color]
    norm_num
    rw [hloop]
    norm_num
    rw [show wrapIndex 2 0 10 = 2 from by decide]
    decide

/-- Claim C7 as amended: with a transform mapping the evaluated pixel to
`c = 2 + 0i`, `escapeRadiusSquared = 4.0` and `maxIterations ≥ 3`, the strict
escape test passes `|z₁|² = 4` through, so the pixel escapes on iteration 2
(when `|z₂|² = 36`), and the discrete color with `colorOffset = 0` is
`palette[2 mod maxIterations]`. -/
theorem c7_amended (maxIterations : ℕ) (h : 3 ≤ maxIterations) (p : ℕ → ℕ)
    (log2 : ℚ → ℚ) (x y : ℤ) (lu : Bool) (sf1 sf2 l22 : ℚ) :
    (escapeLoop 2 0 4 maxIterations).1 = 2 ∧
    calculate_pixel_color log2 x y ⟨0, 0, 2, 0, 0, 0⟩ maxIterations 4 p 0
      false lu sf1 sf2 l22 = p (2 % maxIterations) := by
  obtain ⟨k, rfl⟩ := Nat.exists_eq_add_of_le h
  have hloop : escapeLoop 2 0 4 (3 + k) = (2, 6, 0) := escapeLoop_two k
  have hwrap : wrapIndex 2 0 (3 + (k : ℤ)) = 2 := by
    have hn : (0 : ℤ) < 3 + (k : ℤ) := by positivity
    have h1 : ((2 : ℤ) + 0).tmod (3 + (k : ℤ)) = 2 := by
      rw [Int.tmod_eq_emod (by norm_num) (le_of_lt hn)]
      exact Int.emod_eq_of_lt (by norm_num) (by omega)
    unfold wrapIndex
    rw [h1, Int.tmod_eq_emod (by omega) (le_of_lt hn),
      show (2 : ℤ) + (3 + (k : ℤ)) = 2 + (3 + (k : ℤ)) * 1 from by ring,
      Int.add_mul_emod_self_left]
    exact Int.emod_eq_of_lt (by norm_num) (by omega)
  refine ⟨by rw [hloop], ?_⟩
  simp only [calculate_pixel_color]
  norm_num
  rw [hloop]
  norm_num [show ¬(2 = 3 + k) from by omega]
  rw [hwrap]
  norm_num [Nat.mod_eq_of_lt (show 2 < 3 + k from by omega)]
  rfl

/-- Witness for the amended C7 at `maxIterations = 5` with a concrete
palette. -/
theorem c7_amended_witness :
    (escapeLoop 2 0 4 5).1 = 2 ∧
    calculate_pixel_color (fun q => q) 0 0 ⟨0, 0, 2, 0, 0, 0⟩ 5 4
      (fun n => 200 + n) 0 false true 1 1 1 = (fun n => 200 + n) (2 % 5) :=
  c7_amended 5 (by decide) (fun n => 200 + n) (fun q => q) 0 0 true 1 1 1

lemma or_eq_add {i a b : ℕ} (h : b < 2 ^ i) : 2 ^ i * a ||| b = 2 ^ i * a + b :=
  (Nat.mul_add_lt_is_or h a).symm

lemma rgb_eq_sum (r g b : ℕ) (hr : r < 256) (hg : g < 256) (hb : b < 256) :
    Colors.rgb r g b = 0xFF * 2 ^ 24 + r * 2 ^ 16 + g * 2 ^ 8 + b := by
  unfold Colors.rgb
  rw [Nat.shiftLeft_eq, Nat.shiftLeft_eq, Nat.shiftLeft_eq,
    show (0xFF : ℕ) * 2 ^ 24 = 2 ^ 24 * 0xFF from by ring,
    or_eq_add (show r * 2 ^ 16 < 2 ^ 24 from by nlinarith),
    show 2 ^ 24 * 0xFF + r * 2 ^ 16 = 2 ^ 16 * (2 ^ 8 * 0xFF + r) from by ring,
    or_eq_add (show g * 2 ^ 8 < 2 ^ 16 from by nlinarith),
    show 2 ^ 16 * (2 ^ 8 * 0xFF + r) + g * 2 ^ 8 =
      2 ^ 8 * (2 ^ 8 * (2 ^ 8 * 0xFF + r) + g) from by ring,
    or_eq_add (show b < 2 ^ 8 from by nlinarith),
    show 2 ^ 8 * (2 ^ 8 * (2 ^ 8 * 0xFF + r) + g) + b =
      0xFF * 2 ^ 24 + r * 2 ^ 16 + g * 2 ^ 8 + b from by ring]

lemma rgb_r (r g b : ℕ) (hr : r < 256) (hg : g < 256) (hb : b < 256) :
    Colors.r (Colors.rgb r g b) = r := by
  rw [rgb_eq_sum r g b hr hg hb]
  unfold Colors.r
  rw [Nat.shiftRight_eq_div_pow, show (0xFF : ℕ) = 2 ^ 8 - 1 from rfl,
    Nat.and_pow_two_sub_one_eq_mod]
  norm_num
  omega

lemma rgb_g (r g b : ℕ) (hr : r < 256) (hg : g < 256) (hb : b < 256) :
    Colors.g (Colors.rgb r g b) = g := by
  rw [rgb_eq_sum r g b hr hg hb]
  unfold Colors.g
  rw [Nat.shiftRight_eq_div_pow, show (0xFF : ℕ) = 2 ^ 8 - 1 from rfl,
    Nat.and_pow_two_sub_one_eq_mod]
  norm_num
  omega

lemma rgb_b (r g b : ℕ) (hr : r < 256) (hg : g < 256) (hb : b < 256) :
    Colors.b (Colors.rgb r g b) = b := by
  rw [rgb_eq_sum r g b hr hg hb]
  unfold Colors.b
  rw [show (0xFF : ℕ) = 2 ^ 8 - 1 from rfl, Nat.and_pow_two_sub_one_eq_mod]
  norm_num
  omega

lemma rgb_alpha (r g b : ℕ) (hr : r < 256) (hg : g < 256) (hb : b < 256) :
    Colors.rgb r g b >>> 24 = 0xFF := by
  rw [rgb_eq_sum r g b hr hg hb, Nat.shiftRight_eq_div_pow]
  norm_num
  omega

lemma channel_lt_256 (c : ℕ) :
    Colors.r c < 256 ∧ Colors.g c < 256 ∧ Colors.b c < 256 := by
  unfold Colors.r Colors.g Colors.b
  refine ⟨?_, ?_, ?_⟩ <;>
    exact lt_of_le_of_lt Nat.and_le_right (by norm_num)

lemma truncToInt_of_nonneg {F : Type} [LinearOrderedField F] [FloorRing F]
    (x : F) (h : 0 ≤ x) : truncToInt x = ⌊x⌋ :=
  if_neg (not_lt.mpr h)

lemma truncToInt_natCast (n : ℕ) : truncToInt ((n : ℚ)) = (n : ℤ) := by
  rw [truncToInt_of_nonneg _ (by positivity)]
  exact_mod_cast Int.floor_natCast n

lemma interpolateColor_at_zero (c1 c2 : ℕ) :
    interpolateColor c1 c2 0 =
      Colors.rgb (Colors.r c1) (Colors.g c1) (Colors.b c1) := by
  unfold interpolateColor
  rw [show (Colors.r c1 : ℚ) * (1 - 0) + (Colors.r c2 : ℚ) * 0 =
        ((Colors.r c1 : ℕ) : ℚ) from by ring,
      show (Colors.g c1 : ℚ) * (1 - 0) + (Colors.g c2 : ℚ) * 0 =
        ((Colors.g c1 : ℕ) : ℚ) from by ring,
      show (Colors.b c1 : ℚ) * (1 - 0) + (Colors.b c2 : ℚ) * 0 =
        ((Colors.b c1 : ℕ) : ℚ) from by ring,
      truncToInt_natCast, truncToInt_natCast, truncToInt_natCast]
  rfl

lemma blend_nonneg_le (a b : ℕ) (ha : a < 256) (hb : b < 256) (f : ℚ)
    (hf0 : 0 ≤ f) (hf1 : f ≤ 1) :
    0 ≤ (a : ℚ) * (1 - f) + (b : ℚ) * f ∧
    (a : ℚ) * (1 - f) + (b : ℚ) * f ≤ 255 := by
  have ha' : (a : ℚ) ≤ 255 := by exact_mod_cast Nat.lt_succ_iff.mp ha
  have hb' : (b : ℚ) ≤ 255 := by exact_mod_cast Nat.lt_succ_iff.mp hb
  have ha0 : (0 : ℚ) ≤ (a : ℚ) := by positivity
  have hb0 : (0 : ℚ) ≤ (b : ℚ) := by positivity
  constructor
  · have h1 : 0 ≤ (a : ℚ) * (1 - f) := mul_nonneg ha0 (by linarith)
    have h2 : 0 ≤ (b : ℚ) * f := mul_nonneg hb0 hf0
    linarith
  · nlinarith

lemma truncToInt_blend_bounds (a b : ℕ) (ha : a < 256) (hb : b < 256) (f : ℚ)
    (hf0 : 0 ≤ f) (hf1 : f ≤ 1) :
    0 ≤ truncToInt ((a : ℚ) * (1 - f) + (b : ℚ) * f) ∧
    truncToInt ((a : ℚ) * (1 - f) + (b : ℚ) * f) ≤ 255 := by
  obtain ⟨h0, h255⟩ := blend_nonneg_le a b ha hb f hf0 hf1
  rw [truncToInt_of_nonneg _ h0]
  constructor
  · exact Int.floor_nonneg.mpr h0
  · have h1 : (⌊(a : ℚ) * (1 - f) + (b : ℚ) * f⌋ : ℚ) ≤
        (a : ℚ) * (1 - f) + (b : ℚ) * f := Int.floor_le _
    exact_mod_cast le_trans h1 h255

/-- Claim C8: at `fraction = 0` the interpolated color's red, green and blue
channels are exactly the channels of the first (wrapped lower-index) palette
color, and as the fraction tends to 1 each channel blend tends to the second
color's channel: its distance to that channel is `(1 - f)` times the channel
distance. -/
theorem c8_interpolation_boundaries (color1 color2 : ℕ) (f : ℚ) (_hf0 : 0 ≤ f)
    (hf1 : f ≤ 1) :
    (Colors.r (interpolateColor color1 color2 0) = Colors.r color1 ∧
     Colors.g (interpolateColor color1 color2 0) = Colors.g color1 ∧
     Colors.b (interpolateColor color1 color2 0) = Colors.b color1) ∧
    (|(Colors.r color1 : ℚ) * (1 - f) + (Colors.r color2 : ℚ) * f -
        (Colors.r color2 : ℚ)| = (1 - f) * |(Colors.r color1 : ℚ) -
        (Colors.r color2 : ℚ)| ∧
     |(Colors.g color1 : ℚ) * (1 - f) + (Colors.g color2 : ℚ) * f -
        (Colors.g color2 : ℚ)| = (1 - f) * |(Colors.g color1 : ℚ) -
        (Colors.g color2 : ℚ)| ∧
     |(Colors.b color1 : ℚ) * (1 - f) + (Colors.b color2 : ℚ) * f -
        (Colors.b color2 : ℚ)| = (1 - f) * |(Colors.b color1 : ℚ) -
        (Colors.b color2 : ℚ)|) := by
  obtain ⟨hr1, hg1, hb1⟩ := channel_lt_256 color1
  constructor
  · rw [interpolateColor_at_zero]
    exact ⟨rgb_r _ _ _ hr1 hg1 hb1, rgb_g _ _ _ hr1 hg1 hb1,
      rgb_b _ _ _ hr1 hg1 hb1⟩
  · refine ⟨?_, ?_, ?_⟩ <;>
    · rw [show ∀ a b : ℚ, a * (1 - f) + b * f - b = (1 - f) * (a - b) from
        fun a b => by ring, abs_mul, abs_of_nonneg (by linarith : (0:ℚ) ≤ 1 - f)]

/-- Witness for C8 at `f = 1/4` with two concrete packed colors. -/
theorem c8_interpolation_boundaries_witness :
    (Colors.r (interpolateColor 0xFF102030 0xFF405060 0) = Colors.r 0xFF102030 ∧
     Colors.g (interpolateColor 0xFF102030 0xFF405060 0) = Colors.g 0xFF102030 ∧
     Colors.b (interpolateColor 0xFF102030 0xFF405060 0) = Colors.b 0xFF102030) ∧
    (|(Colors.r 0xFF102030 : ℚ) * (1 - 1/4) + (Colors.r 0xFF405060 : ℚ) * (1/4) -
        (Colors.r 0xFF405060 : ℚ)| = (1 - 1/4) * |(Colors.r 0xFF102030 : ℚ) -
        (Colors.r 0xFF405060 : ℚ)| ∧
     |(Colors.g 0xFF102030 : ℚ) * (1 - 1/4) + (Colors.g 0xFF405060 : ℚ) * (1/4) -
        (Colors.g 0xFF405060 : ℚ)| = (1 - 1/4) * |(Colors.g 0xFF102030 : ℚ) -
        (Colors.g 0xFF405060 : ℚ)| ∧
     |(Colors.b 0xFF102030 : ℚ) * (1 - 1/4) + (Colors.b 0xFF405060 : ℚ) * (1/4) -
        (Colors.b 0xFF405060 : ℚ)| = (1 - 1/4) * |(Colors.b 0xFF102030 : ℚ) -
        (Colors.b 0xFF405060 : ℚ)|) :=
  c8_interpolation_boundaries 0xFF102030 0xFF405060 (1/4) (by norm_num)
    (by norm_num)

/-- Claim C10: for every escaping pixel in smooth mode the continuous index
`max(0, i + 1 - nu)` is non-negative, so its C++ `int` truncation equals its
floor and the fraction `continuousIndex - floor(continuousIndex)` lies in
`[0, 1)`; for any fraction in `[0, 1)` each truncated interpolated channel
lies in `[0, 255]`, and the repacked color has alpha byte exactly `0xFF` with
every channel recoverable from its own byte position. -/
theorem c10_smooth_pack_invariants (nuv : ℚ) (i : ℕ) (color1 color2 : ℕ) :
    0 ≤ max 0 ((i : ℚ) + 1 - nuv) ∧
    truncToInt (max 0 ((i : ℚ) + 1 - nuv)) = ⌊max 0 ((i : ℚ) + 1 - nuv)⌋ ∧
    0 ≤ max 0 ((i : ℚ) + 1 - nuv) - ⌊max 0 ((i : ℚ) + 1 - nuv)⌋ ∧
    max 0 ((i : ℚ) + 1 - nuv) - ⌊max 0 ((i : ℚ) + 1 - nuv)⌋ < 1 ∧
    (∀ f : ℚ, 0 ≤ f → f < 1 →
      (0 ≤ truncToInt ((Colors.r color1 : ℚ) * (1 - f) + (Colors.r color2 : ℚ) * f) ∧
       truncToInt ((Colors.r color1 : ℚ) * (1 - f) + (Colors.r color2 : ℚ) * f) ≤ 255) ∧
      (0 ≤ truncToInt ((Colors.g color1 : ℚ) * (1 - f) + (Colors.g color2 : ℚ) * f) ∧
       truncToInt ((Colors.g color1 : ℚ) * (1 - f) + (Colors.g color2 : ℚ) * f) ≤ 255) ∧
      (0 ≤ truncToInt ((Colors.b color1 : ℚ) * (1 - f) + (Colors.b color2 : ℚ) * f) ∧
       truncToInt ((Colors.b color1 : ℚ) * (1 - f) + (Colors.b color2 : ℚ) * f) ≤ 255) ∧
      interpolateColor color1 color2 f >>> 24 = 0xFF ∧
      Colors.r (interpolateColor color1 color2 f) =
        (truncToInt ((Colors.r color1 : ℚ) * (1 - f) + (Colors.r color2 : ℚ) * f)).toNat ∧
      Colors.g (interpolateColor color1 color2 f) =
        (truncToInt ((Colors.g color1 : ℚ) * (1 - f) + (Colors.g color2 : ℚ) * f)).toNat ∧
      Colors.b (interpolateColor color1 color2 f) =
        (truncToInt ((Colors.b color1 : ℚ) * (1 - f) + (Colors.b color2 : ℚ) * f)).toNat) := by
  obtain ⟨hr1, hg1, hb1⟩ := channel_lt_256 color1
  obtain ⟨hr2, hg2, hb2⟩ := channel_lt_256 color2
  have hci : 0 ≤ max 0 ((i : ℚ) + 1 - nuv) := le_max_left 0 _
  refine ⟨hci, truncToInt_of_nonneg _ hci, ?_, ?_, ?_⟩
  · rw [Int.self_sub_floor (max 0 ((i : ℚ) + 1 - nuv))]
    exact Int.fract_nonneg _
  · rw [Int.self_sub_floor (max 0 ((i : ℚ) + 1 - nuv))]
    exact Int.fract_lt_one _
  · intro f hf0 hf1
    have hf1' : f ≤ 1 := le_of_lt hf1
    obtain ⟨hR0, hR255⟩ := truncToInt_blend_bounds _ _ hr1 hr2 f hf0 hf1'
    obtain ⟨hG0, hG255⟩ := truncToInt_blend_bounds _ _ hg1 hg2 f hf0 hf1'
    obtain ⟨hB0, hB255⟩ := truncToInt_blend_bounds _ _ hb1 hb2 f hf0 hf1'
    have hRlt : (truncToInt ((Colors.r color1 : ℚ) * (1 - f) +
        (Colors.r color2 : ℚ) * f)).toNat < 256 := by omega
    have hGlt : (truncToInt ((Colors.g color1 : ℚ) * (1 - f) +
        (Colors.g color2 : ℚ) * f)).toNat < 256 := by omega
    have hBlt : (truncToInt ((Colors.b color1 : ℚ) * (1 - f) +
        (Colors.b color2 : ℚ) * f)).toNat < 256 := by omega
    have hinterp : interpolateColor color1 color2 f =
        Colors.rgb
          (truncToInt ((Colors.r color1 : ℚ) * (1 - f) + (Colors.r color2 : ℚ) * f)).toNat
          (truncToInt ((Colors.g color1 : ℚ) * (1 - f) + (Colors.g color2 : ℚ) * f)).toNat
          (truncToInt ((Colors.b color1 : ℚ) * (1 - f) + (Colors.b color2 : ℚ) * f)).toNat :=
      rfl
    rw [hinterp]
    exact ⟨⟨hR0, hR255⟩, ⟨hG0, hG255⟩, ⟨hB0, hB255⟩,
      rgb_alpha _ _ _ hRlt hGlt hBlt, rgb_r _ _ _ hRlt hGlt hBlt,
      rgb_g _ _ _ hRlt hGlt hBlt, rgb_b _ _ _ hRlt hGlt hBlt⟩

/-- Witness for C10 at `nu = 1/3`, `i = 7` and two concrete colors. -/
theorem c10_smooth_pack_invariants_witness :
    0 ≤ max 0 ((7 : ℚ) + 1 - 1/3) ∧
    truncToInt (max 0 ((7 : ℚ) + 1 - 1/3)) = ⌊max 0 ((7 : ℚ) + 1 - 1/3)⌋ ∧
    0 ≤ max 0 ((7 : ℚ) + 1 - 1/3) - ⌊max 0 ((7 : ℚ) + 1 - 1/3)⌋ ∧
    max 0 ((7 : ℚ) + 1 - 1/3) - ⌊max 0 ((7 : ℚ) + 1 - 1/3)⌋ < 1 ∧
    (∀ f : ℚ, 0 ≤ f → f < 1 →
      (0 ≤ truncToInt ((Colors.r 0xFFA0B0C0 : ℚ) * (1 - f) + (Colors.r 0xFF010203 : ℚ) * f) ∧
       truncToInt ((Colors.r 0xFFA0B0C0 : ℚ) * (1 - f) + (Colors.r 0xFF010203 : ℚ) * f) ≤ 255) ∧
      (0 ≤ truncToInt ((Colors.g 0xFFA0B0C0 : ℚ) * (1 - f) + (Colors.g 0xFF010203 : ℚ) * f) ∧
       truncToInt ((Colors.g 0xFFA0B0C0 : ℚ) * (1 - f) + (Colors.g 0xFF010203 : ℚ) * f) ≤ 255) ∧
      (0 ≤ truncToInt ((Colors.b 0xFFA0B0C0 : ℚ) * (1 - f) + (Colors.b 0xFF010203 : ℚ) * f) ∧
       truncToInt ((Colors.b 0xFFA0B0C0 : ℚ) * (1 - f) + (Colors.b 0xFF010203 : ℚ) * f) ≤ 255) ∧
      interpolateColor 0xFFA0B0C0 0xFF010203 f >>> 24 = 0xFF ∧
      Colors.r (interpolateColor 0xFFA0B0C0 0xFF010203 f) =
        (truncToInt ((Colors.r 0xFFA0B0C0 : ℚ) * (1 - f) + (Colors.r 0xFF010203 : ℚ) * f)).toNat ∧
      Colors.g (interpolateColor 0xFFA0B0C0 0xFF010203 f) =
        (truncToInt ((Colors.g 0xFFA0B0C0 : ℚ) * (1 - f) + (Colors.g 0xFF010203 : ℚ) * f)).toNat ∧
      Colors.b (interpolateColor 0xFFA0B0C0 0xFF010203 f) =
        (truncToInt ((Colors.b 0xFFA0B0C0 : ℚ) * (1 - f) + (Colors.b 0xFF010203 : ℚ) * f)).toNat) :=
  c10_smooth_pack_invariants (1/3) 7 0xFFA0B0C0 0xFF010203

lemma log_three_lt : Real.log 3 < (317 / 200) * Real.log 2 := by
  have h : ((3 : ℝ)) ^ (200 : ℕ) < (2 : ℝ) ^ (317 : ℕ) := by norm_num
  have h2 := Real.log_lt_log (by positivity) h
  rw [Real.log_pow, Real.log_pow] at h2
  push_cast at h2
  linarith

lemma logb_two_four : Real.logb 2 4 = 2 := by
  rw [show (4 : ℝ) = 2 ^ (2 : ℕ) from by norm_num, Real.logb_pow,
    Real.logb_self_eq_one (by norm_num)]
  norm_num

lemma smoothNu_true_eq (m s1 s2 l : ℝ) :
    smoothNu (fun x => Real.logb 2 x) true m s1 s2 l =
      logLogLookupTable (fun x => Real.logb 2 x)
        (nuIndex (logMagnitudeLookupTable (fun x => Real.logb 2 x)
          (magIndex m s1).toNat / 2) s2).toNat / l := rfl

lemma smoothNu_false_eq (m s1 s2 l : ℝ) :
    smoothNu (fun x => Real.logb 2 x) false m s1 s2 l =
      Real.logb 2 (Real.logb 2 m / 2) / l := rfl

/-- Counterexample to claim C9: at `magSq = 4 + 1/100000` (a pixel that has
just escaped), the lookup path quantizes both indices to 0 and returns
`nu = 0` exactly, while the exact path returns a strictly positive `nu`; the
relative error is 1, far above `1/65535`. -/
theorem c9_counterexample :
    smoothNu (fun x => Real.logb 2 x) true (4 + 1/100000) (65535/32)
      (65535/1.585) (Real.logb 2 2) = 0 ∧
    0 < smoothNu (fun x => Real.logb 2 x) false (4 + 1/100000) (65535/32)
      (65535/1.585) (Real.logb 2 2) ∧
    ¬ (|smoothNu (fun x => Real.logb 2 x) true (4 + 1/100000) (65535/32)
          (65535/1.585) (Real.logb 2 2) -
        smoothNu (fun x => Real.logb 2 x) false (4 + 1/100000) (65535/32)
          (65535/1.585) (Real.logb 2 2)| ≤
       (1/65535) * |smoothNu (fun x => Real.logb 2 x) false (4 + 1/100000)
          (65535/32) (65535/1.585) (Real.logb 2 2)|) := by
  have hmagidx : magIndex (4 + 1/100000 : ℝ) (65535/32) = 0 := by
    unfold magIndex clampIdx
    rw [truncToInt_of_nonneg _ (by norm_num),
      show ⌊((4 + 1/100000 : ℝ) - 4) * (65535/32)⌋ = 0 from
        Int.floor_eq_zero_iff.mpr (by norm_num [Set.mem_Ico])]
    norm_num
  have hlzl : logMagnitudeLookupTable (fun x => Real.logb 2 x)
      (magIndex (4 + 1/100000 : ℝ) (65535/32)).toNat / 2 = 1 := by
    rw [hmagidx]
    simp only [logMagnitudeLookupTable, Int.toNat_zero]
    norm_num [logb_two_four]
  have hnuidx : nuIndex (1 : ℝ) (65535/1.585) = 0 := by
    unfold nuIndex clampIdx
    rw [truncToInt_of_nonneg _ (by norm_num),
      show ⌊((1 : ℝ) - 1) * (65535/1.585)⌋ = 0 from
        Int.floor_eq_zero_iff.mpr (by norm_num [Set.mem_Ico])]
    norm_num
  have hTzero : smoothNu (fun x => Real.logb 2 x) true (4 + 1/100000)
      (65535/32) (65535/1.585) (Real.logb 2 2) = 0 := by
    rw [smoothNu_true_eq, hlzl, hnuidx]
    simp only [logLogLookupTable, Int.toNat_zero]
    norm_num [Real.logb_one]
  have h1 : Real.logb 2 4 < Real.logb 2 (4 + 1/100000) :=
    Real.logb_lt_logb (by norm_num) (by norm_num) (by norm_num)
  rw [logb_two_four] at h1
  have hFpos : 0 < smoothNu (fun x => Real.logb 2 x) false (4 + 1/100000)
      (65535/32) (65535/1.585) (Real.logb 2 2) := by
    rw [smoothNu_false_eq, Real.logb_self_eq_one (by norm_num), div_one]
    exact Real.logb_pos (by norm_num) (by linarith)
  refine ⟨hTzero, hFpos, ?_⟩
  rw [hTzero, zero_sub, abs_neg, abs_of_pos hFpos]
  intro hle
  nlinarith

lemma clamp_trunc_eq_floor (v : ℝ) (hv0 : 0 ≤ v) (hcap : v ≤ 65535) :
    clampIdx (truncToInt v) = ⌊v⌋ := by
  rw [truncToInt_of_nonneg _ hv0]
  unfold clampIdx
  have h1 : 0 ≤ ⌊v⌋ := Int.floor_nonneg.mpr hv0
  have h2 : ⌊v⌋ ≤ 65535 := by
    have h3 : (⌊v⌋ : ℝ) ≤ 65535 := le_trans (Int.floor_le v) hcap
    exact_mod_cast h3
  rw [min_eq_left h2, max_eq_right h1]

lemma toNat_cast_real (n : ℤ) (h : 0 ≤ n) : ((n.toNat : ℕ) : ℝ) = (n : ℝ) := by
  exact_mod_cast Int.toNat_of_nonneg h

set_option maxHeartbeats 1000000 in
/-- Claim C9 as amended: with the production scale factors
(`logMagnitudeScaleFactor = 65535/32`, `logLogScaleFactor = 65535/1.585`,
`log2_2 = log2 2`) and the final squared magnitude in the tables' design
domain `[4, 36]`, the lookup-based `nu` never exceeds the exact `nu` and
their absolute difference is at most `1/2000`; a relative error bound of
`1/65535` does not hold (the lookup `nu` is exactly 0 on a band of escaping
pixels whose exact `nu` is positive). -/
theorem c9_amended (magSq : ℝ) (h4 : 4 ≤ magSq) (h36 : magSq ≤ 36) :
    0 ≤ smoothNu (fun x => Real.logb 2 x) false magSq (65535/32) (65535/1.585)
        (Real.logb 2 2) -
      smoothNu (fun x => Real.logb 2 x) true magSq (65535/32) (65535/1.585)
        (Real.logb 2 2) ∧
    smoothNu (fun x => Real.logb 2 x) false magSq (65535/32) (65535/1.585)
        (Real.logb 2 2) -
      smoothNu (fun x => Real.logb 2 x) true magSq (65535/32) (65535/1.585)
        (Real.logb 2 2) ≤ 1/2000 := by
  have hl2 : (0 : ℝ) < Real.log 2 := Real.log_pos (by norm_num)
  have hv1a : (0 : ℝ) ≤ (magSq - 4) * (65535/32) :=
    mul_nonneg (by linarith) (by norm_num)
  have hv1b : (magSq - 4) * (65535/32) ≤ 65535 := by nlinarith
  have hmag : magIndex magSq (65535/32) = ⌊(magSq - 4) * (65535/32)⌋ := by
    unfold magIndex
    exact clamp_trunc_eq_floor _ hv1a hv1b
  have hn1a : (0 : ℤ) ≤ ⌊(magSq - 4) * (65535/32)⌋ := Int.floor_nonneg.mpr hv1a
  have hA : logMagnitudeLookupTable (fun x => Real.logb 2 x)
      (magIndex magSq (65535/32)).toNat =
      Real.logb 2 (4 + ((⌊(magSq - 4) * (65535/32)⌋ : ℝ)) / 65535 * 32) := by
    rw [hmag]
    simp only [logMagnitudeLookupTable]
    rw [toNat_cast_real _ hn1a]
  have hfl_le : ((⌊(magSq - 4) * (65535/32)⌋ : ℝ)) ≤ (magSq - 4) * (65535/32) :=
    Int.floor_le _
  have hfl_gt : (magSq - 4) * (65535/32) < (⌊(magSq - 4) * (65535/32)⌋ : ℝ) + 1 :=
    Int.lt_floor_add_one _
  have hn1aR : (0 : ℝ) ≤ ((⌊(magSq - 4) * (65535/32)⌋ : ℝ)) := by exact_mod_cast hn1a
  set Aarg : ℝ := 4 + ((⌊(magSq - 4) * (65535/32)⌋ : ℝ)) / 65535 * 32 with hAarg
  have hA4 : 4 ≤ Aarg := by rw [hAarg]; nlinarith [hn1aR]
  have hAle : Aarg ≤ magSq := by rw [hAarg]; nlinarith [hfl_le]
  have hAgap : magSq - Aarg < 32/65535 := by rw [hAarg]; nlinarith [hfl_gt]
  have hA36 : Aarg ≤ 36 := le_trans hAle h36
  have hA0 : (0 : ℝ) < Aarg := by linarith
  have hlogb4 : Real.logb 2 4 = 2 := logb_two_four
  have hmono1 : Real.logb 2 4 ≤ Real.logb 2 Aarg :=
    Real.logb_le_logb_of_le (by norm_num) (by norm_num) hA4
  have hlzl_ge : 1 ≤ Real.logb 2 Aarg / 2 := by rw [hlogb4] at hmono1; linarith
  have hmono2 : Real.logb 2 Aarg ≤ Real.logb 2 36 :=
    Real.logb_le_logb_of_le (by norm_num) hA0 hA36
  have hlog36 : Real.logb 2 36 = 2 + 2 * (Real.log 3 / Real.log 2) := by
    rw [← Real.log_div_log, show (36 : ℝ) = 2 ^ (2 : ℕ) * 3 ^ (2 : ℕ) from by norm_num,
      Real.log_mul (by positivity) (by positivity), Real.log_pow, Real.log_pow]
    push_cast
    field_simp
  have hlog3 : Real.log 3 / Real.log 2 < 317/200 := by
    rw [div_lt_iff₀ hl2]
    exact log_three_lt
  have hlzl_lt : Real.logb 2 Aarg / 2 - 1 < 317/200 := by
    rw [hlog36] at hmono2
    linarith
  have hu0 : (0 : ℝ) ≤ (Real.logb 2 Aarg / 2 - 1) * (65535/1.585) :=
    mul_nonneg (by linarith) (by norm_num)
  have hu_cap : (Real.logb 2 Aarg / 2 - 1) * (65535/1.585) ≤ 65535 := by
    have h1585 : (1.585 : ℝ) = 317/200 := by norm_num
    rw [h1585]
    nlinarith [hlzl_lt]
  have hnu : nuIndex (Real.logb 2 Aarg / 2) (65535/1.585) =
      ⌊(Real.logb 2 Aarg / 2 - 1) * (65535/1.585)⌋ := by
    unfold nuIndex
    exact clamp_trunc_eq_floor _ hu0 hu_cap
  have hn2a : (0 : ℤ) ≤ ⌊(Real.logb 2 Aarg / 2 - 1) * (65535/1.585)⌋ :=
    Int.floor_nonneg.mpr hu0
  have hn2aR : (0 : ℝ) ≤ ((⌊(Real.logb 2 Aarg / 2 - 1) * (65535/1.585)⌋ : ℝ)) := by
    exact_mod_cast hn2a
  have hfl2_le : ((⌊(Real.logb 2 Aarg / 2 - 1) * (65535/1.585)⌋ : ℝ)) ≤
      (Real.logb 2 Aarg / 2 - 1) * (65535/1.585) := Int.floor_le _
  have hfl2_gt : (Real.logb 2 Aarg / 2 - 1) * (65535/1.585) <
      ((⌊(Real.logb 2 Aarg / 2 - 1) * (65535/1.585)⌋ : ℝ)) + 1 :=
    Int.lt_floor_add_one _
  set g2 : ℝ := 1 + ((⌊(Real.logb 2 Aarg / 2 - 1) * (65535/1.585)⌋ : ℝ)) / 65535 * 1.585
    with hg2def
  have hg2_ge1 : 1 ≤ g2 := by rw [hg2def]; nlinarith [hn2aR]
  have hg2_le : g2 ≤ Real.logb 2 Aarg / 2 := by rw [hg2def]; nlinarith [hfl2_le]
  have hg2_gap : Real.logb 2 Aarg / 2 - g2 < 1.585/65535 := by
    rw [hg2def]; nlinarith [hfl2_gt]
  have hg2pos : (0 : ℝ) < g2 := by linarith
  have hTrue : smoothNu (fun x => Real.logb 2 x) true magSq (65535/32)
      (65535/1.585) (Real.logb 2 2) = Real.logb 2 g2 := by
    rw [smoothNu_true_eq, hA, hnu]
    simp only [logLogLookupTable]
    rw [toNat_cast_real _ hn2a, Real.logb_self_eq_one (by norm_num), div_one,
      ← hg2def]
  have hFalse : smoothNu (fun x => Real.logb 2 x) false magSq (65535/32)
      (65535/1.585) (Real.logb 2 2) = Real.logb 2 (Real.logb 2 magSq / 2) := by
    rw [smoothNu_false_eq, Real.logb_self_eq_one (by norm_num), div_one]
  have hEmono : Real.logb 2 Aarg ≤ Real.logb 2 magSq :=
    Real.logb_le_logb_of_le (by norm_num) hA0 hAle
  have hlzE_ge : 1 ≤ Real.logb 2 magSq / 2 := by linarith
  have hlower : Real.logb 2 g2 ≤ Real.logb 2 (Real.logb 2 magSq / 2) :=
    Real.logb_le_logb_of_le (by norm_num) hg2pos (by linarith)
  have hstage1 : Real.logb 2 magSq - Real.logb 2 Aarg ≤
      (32/65535) / 4 / Real.log 2 := by
    rw [← Real.log_div_log, ← Real.log_div_log, div_sub_div_same]
    have hld : Real.log magSq - Real.log Aarg = Real.log (magSq / Aarg) :=
      (Real.log_div (by linarith) (by linarith)).symm
    rw [hld]
    have hq : Real.log (magSq / Aarg) ≤ magSq / Aarg - 1 :=
      Real.log_le_sub_one_of_pos (by positivity)
    have hq2 : magSq / Aarg - 1 ≤ (32/65535) / 4 := by
      rw [div_sub_one (ne_of_gt hA0)]
      exact div_le_div₀ (by norm_num) (by linarith) (by norm_num) hA4
    exact (div_le_div_iff_of_pos_right hl2).mpr (le_trans hq hq2)
  have hupper : Real.logb 2 (Real.logb 2 magSq / 2) - Real.logb 2 g2 ≤
      ((32/65535) / 4 / Real.log 2 / 2 + 1.585/65535) / Real.log 2 := by
    rw [show Real.logb 2 (Real.logb 2 magSq / 2) =
          Real.log (Real.logb 2 magSq / 2) / Real.log 2 from
        Real.log_div_log.symm,
      show Real.logb 2 g2 = Real.log g2 / Real.log 2 from Real.log_div_log.symm,
      div_sub_div_same]
    have hE2pos : (0 : ℝ) < Real.logb 2 magSq / 2 := by linarith
    have hld : Real.log (Real.logb 2 magSq / 2) - Real.log g2 =
        Real.log ((Real.logb 2 magSq / 2) / g2) :=
      (Real.log_div (ne_of_gt hE2pos) (ne_of_gt hg2pos)).symm
    rw [hld]
    have hq : Real.log ((Real.logb 2 magSq / 2) / g2) ≤
        (Real.logb 2 magSq / 2) / g2 - 1 :=
      Real.log_le_sub_one_of_pos (by positivity)
    have hnum : Real.logb 2 magSq / 2 - g2 ≤
        (32/65535) / 4 / Real.log 2 / 2 + 1.585/65535 := by
      have hsplit : Real.logb 2 magSq / 2 - g2 =
          (Real.logb 2 magSq - Real.logb 2 Aarg) / 2 +
          (Real.logb 2 Aarg / 2 - g2) := by ring
      rw [hsplit]
      linarith
    have hq2 : (Real.logb 2 magSq / 2) / g2 - 1 ≤
        (32/65535) / 4 / Real.log 2 / 2 + 1.585/65535 := by
      rw [div_sub_one (ne_of_gt hg2pos)]
      have hEg : 0 ≤ Real.logb 2 magSq / 2 - g2 := by linarith
      have hds := div_le_self hEg hg2_ge1
      linarith
    exact (div_le_div_iff_of_pos_right hl2).mpr (le_trans hq hq2)
  have hnumeric : ((32/65535) / 4 / Real.log 2 / 2 + 1.585/65535) / Real.log 2 ≤
      1/2000 := by
    have hd9 : (0.6931471803 : ℝ) < Real.log 2 := Real.log_two_gt_d9
    have e0 : (32/65535 : ℝ) / 4 / Real.log 2 / 2 = 4 / (65535 * Real.log 2) := by
      field_simp
      ring
    rw [e0]
    have e1 : 4 / (65535 * Real.log 2) ≤ 4 / (65535 * (0.6931471803 : ℝ)) := by
      apply div_le_div_of_nonneg_left (by norm_num) (by positivity)
      nlinarith
    have e2 : (4 : ℝ) / (65535 * (0.6931471803 : ℝ)) ≤ 0.000089 := by norm_num
    have e3 : (1.585 : ℝ) / 65535 ≤ 0.0000242 := by norm_num
    have e4 : 4 / (65535 * Real.log 2) + (1.585 : ℝ)/65535 ≤ 0.0001132 := by linarith
    have e5 : (4 / (65535 * Real.log 2) + (1.585 : ℝ)/65535) / Real.log 2 ≤
        (0.0001132 : ℝ) / (0.6931471803 : ℝ) :=
      div_le_div₀ (by norm_num) e4 (by norm_num) (le_of_lt hd9)
    have e6 : (0.0001132 : ℝ) / (0.6931471803 : ℝ) ≤ 1/2000 := by norm_num
    linarith
  rw [hFalse, hTrue]
  exact ⟨sub_nonneg.mpr hlower, le_trans hupper hnumeric⟩

/-- Witness for the amended C9 at `magSq = 5`. -/
theorem c9_amended_witness :
    0 ≤ smoothNu (fun x => Real.logb 2 x) false 5 (65535/32) (65535/1.585)
        (Real.logb 2 2) -
      smoothNu (fun x => Real.logb 2 x) true 5 (65535/32) (65535/1.585)
        (Real.logb 2 2) ∧
    smoothNu (fun x => Real.logb 2 x) false 5 (65535/32) (65535/1.585)
        (Real.logb 2 2) -
      smoothNu (fun x => Real.logb 2 x) true 5 (65535/32) (65535/1.585)
        (Real.logb 2 2) ≤ 1/2000 :=
  c9_amended 5 (by norm_num) (by norm_num)
